import Mathlib

/-!
Verification development for the file-sorting application in
src/dosya_siralama.py.  The Python source is shallowly embedded: the pure
text-analysis fragments become Lean functions over `List Char` and `Nat`,
the file system becomes an explicit map from path strings to file
identifiers, and the per-file worker loop becomes a fold over an outcome
oracle.  The Unicode tables used by Python's str.lower and the regex
class \w are not fixed by the source, so they appear as parameters
(`lower`, `wc`); every theorem below holds for every instantiation.
-/

set_option maxHeartbeats 1000000

/- ========== Text pipeline (DocumentAnalyzer) ========== -/

/-- Embeds Python str.split() (no arguments): splits on runs of whitespace
and discards empty pieces.  `acc` holds the characters of the current word
in reverse order. -/
def splitWsAux : List Char → List Char → List (List Char)
  | acc, [] => if acc.isEmpty then [] else [acc.reverse]
  | acc, c :: cs =>
    if c.isWhitespace then
      if acc.isEmpty then splitWsAux [] cs else acc.reverse :: splitWsAux [] cs
    else splitWsAux (c :: acc) cs

/-- Whitespace tokenisation of a character list, as in text_clean.split(). -/
def splitWs (l : List Char) : List (List Char) := splitWsAux [] l

/-- Embeds Python str.strip(): removes leading and trailing whitespace. -/
def pyStrip (l : List Char) : List Char :=
  ((l.dropWhile Char.isWhitespace).reverse.dropWhile Char.isWhitespace).reverse

/-- Embeds re.sub(r'[^\w\s]', ' ', text): every character that is neither a
word character (per the regex table `wc`) nor whitespace becomes a space. -/
def cleanText (wc : Char → Bool) (l : List Char) : List Char :=
  l.map (fun c => if wc c || c.isWhitespace then c else ' ')

/-- The Turkish stop-word set of DocumentAnalyzer.__init__. -/
def turkishStopwords : List String :=
  ["acaba", "ama", "aslında", "az", "bazı", "belki", "biri", "birkaç", "birşey", "biz",
   "bu", "çok", "çünkü", "da", "daha", "de", "defa", "diye", "eğer", "en", "gibi", "hem",
   "hep", "hepsi", "her", "hiç", "için", "ile", "ise", "kez", "ki", "kim", "mı", "mu",
   "mü", "nasıl", "ne", "neden", "nerde", "nerede", "nereye", "niçin", "niye", "o", "sanki",
   "şey", "siz", "şu", "tüm", "ve", "veya", "ya", "yani"]

def stopwordsData : List (List Char) := turkishStopwords.map String.data

/-- The keyword table of DocumentAnalyzer.__init__ (self.categories),
entry "Finans". -/
def finansKeywords : List String :=
  ["bütçe", "fatura", "ödeme", "bank", "para", "hesap", "mali", "finans",
   "kredi", "borç", "yatırım", "borsa", "döviz", "vergi", "maaş"]

def egitimKeywords : List String :=
  ["ders", "ödev", "proje", "sınav", "okul", "üniversite", "eğitim", "öğrenci",
   "not", "sınıf", "kurs", "seminer", "akademik", "tez", "ders notu"]

def isKeywords : List String :=
  ["rapor", "toplantı", "proje", "sunum", "iş", "şirket", "yönetim", "strateji",
   "plan", "çalışan", "müdür", "müşteri", "satış", "pazarlama", "insan kaynakları"]

def teknikKeywords : List String :=
  ["kod", "yazılım", "donanım", "teknik", "sistem", "network", "server", "database",
   "program", "algoritma", "yapay zeka", "machine learning", "veri", "analiz"]

def saglikKeywords : List String :=
  ["sağlık", "hasta", "tedavi", "rapor", "ilaç", "doktor", "hastane", "muayene",
   "tahlil", "reçete", "ameliyat", "tedavi", "psikoloji", "terapi"]

def hukukKeywords : List String :=
  ["sözleşme", "kanun", "yasa", "hukuk", "dava", "avukat", "mahkeme", "anlaşma",
   "taraflar", "madde", "yargı", "ceza", "hüküm", "temyiz"]

def kisiselKeywords : List String :=
  ["cv", "özgeçmiş", "mektup", "kişisel", "iletişim", "aile", "arkadaş", "ev",
   "tatil", "gezi", "günlük", "anı", "fotoğraf", "video"]

def arastirmaKeywords : List String :=
  ["araştırma", "makale", "tez", "bilim", "akademik", "yayın", "doktora",
   "literatür", "deney", "sonuç", "hipotez", "bulgu", "analiz"]

def tasarimKeywords : List String :=
  ["tasarım", "çizim", "grafik", "resim", "şekil", "layout", "ui", "ux",
   "renk", "font", "illustrasyon", "mockup", "prototip"]

def yonetimKeywords : List String :=
  ["plan", "strateji", "hedef", "performans", "kalite", "süreç", "proje yönetimi",
   "risk", "bütçe", "kpi", "rapor", "analiz", "karar"]

/-- The per-category keyword table self.categories, in dict insertion order. -/
def categoriesTable : List (String × List String) :=
  [("Finans", finansKeywords), ("Eğitim", egitimKeywords), ("İş", isKeywords),
   ("Teknik", teknikKeywords), ("Sağlık", saglikKeywords), ("Hukuk", hukukKeywords),
   ("Kişisel", kisiselKeywords), ("Araştırma", arastirmaKeywords),
   ("Tasarım", tasarimKeywords), ("Yönetim", yonetimKeywords)]

/-- Lines 394-398 of _keyword_analysis: lower-case, replace punctuation by
spaces, split on whitespace. -/
def tokenizeText (lower : List Char → List Char) (wc : Char → Bool)
    (text : List Char) : List (List Char) :=
  splitWs (cleanText wc (lower text))

/-- Line 401: drop stop words and tokens of length at most 2. -/
def filteredWords (lower : List Char → List Char) (wc : Char → Bool)
    (text : List Char) : List (List Char) :=
  (tokenizeText lower wc text).filter
    (fun w => !stopwordsData.contains w && decide (2 < w.length))

/-- Lines 404-410: the total occurrence count, in the word-frequency table of
the filtered words, of the keywords of one category. -/
def categoryScore (lower : List Char → List Char) (wc : Char → Bool)
    (keywords : List String) (text : List Char) : Nat :=
  (keywords.map (fun k => (filteredWords lower wc text).count k.data)).sum

/-- Embeds _keyword_analysis: a category is detected when its score reaches
the fixed threshold 2; detected categories are reported in table order. -/
def keywordAnalysis (lower : List Char → List Char) (wc : Char → Bool)
    (table : List (String × List String)) (text : List Char) : List String :=
  (table.filter (fun p => decide (2 ≤ categoryScore lower wc p.2 text))).map
    (fun p => p.1)

/-- A keyword that C10 says can be credited at all: a single token without a
space and with more than 2 characters. -/
def goodKeyword (k : String) : Bool :=
  !k.data.contains ' ' && decide (2 < k.data.length)

/-- The category table with every keyword that contains a space or has at
most 2 characters removed (the keywords claim C10 says are never credited). -/
def cleanedCategoriesTable : List (String × List String) :=
  categoriesTable.map (fun p => (p.1, p.2.filter goodKeyword))

/- ========== Summary and analyze_content (DocumentAnalyzer) ========== -/

/-- Embeds re.split(r'[.!?]+', text): splits on maximal runs of sentence
delimiters, keeping the (possibly empty) pieces between runs. -/
def splitRunsAux (p : Char → Bool) : List Char → List Char → List (List Char)
  | acc, [] => [acc.reverse]
  | acc, c :: cs =>
    if p c then acc.reverse :: splitRunsAux p [] (cs.dropWhile p)
    else splitRunsAux p (c :: acc) cs
termination_by _ l => l.length
decreasing_by
  all_goals simp_wf
  all_goals have := (List.dropWhile_sublist p (l := cs)).length_le
  all_goals omega

/-- The accumulation loop of _create_summary lines 459-464: append whole
sentences (plus ". ") while the running length stays under the bound. -/
def summaryLoop (maxLen : Nat) : List (List Char) → List Char → List Char
  | [], acc => acc
  | s :: rest, acc =>
    if acc.length + s.length < maxLen then summaryLoop maxLen rest (acc ++ s ++ ['.', ' '])
    else acc

/-- Embeds DocumentAnalyzer._create_summary (max_length = 150 at the only
call site used by analyze_content). -/
def createSummary (maxLen : Nat) (text : List Char) : List Char :=
  if text.isEmpty then []
  else
    let sentences := splitRunsAux (fun c => c = '.' || c = '!' || c = '?') [] text
    let valid := (sentences.map pyStrip).filter (fun s => decide (10 < s.length))
    if valid.isEmpty then
      if maxLen < text.length then text.take maxLen ++ "...".data else text
    else
      let summary := pyStrip (summaryLoop maxLen (valid.take 3) [])
      if maxLen < summary.length then summary.take maxLen ++ "...".data else summary

/-- First-occurrence deduplication, as performed implicitly by building a
collections.Counter from a list (Python dicts keep insertion order). -/
def dedupFirst : List String → List String
  | [] => []
  | x :: xs => x :: dedupFirst (xs.filter (fun y => y != x))
termination_by l => l.length
decreasing_by
  simp_wf
  have := List.length_filter_le (fun y => y != x) xs
  omega

/-- Counter(l) as an ordered association list (insertion order of first
occurrences, as in CPython). -/
def counterList (l : List String) : List (String × Nat) :=
  (dedupFirst l).map (fun x => (x, l.count x))

/-- Stable insertion into a list sorted descending by `key`; ties keep the
earlier element first, matching Python's stable sort with reverse=True. -/
def insertDescBy (key : α → Nat) (a : α) : List α → List α
  | [] => [a]
  | b :: bs => if key b ≤ key a then a :: b :: bs else b :: insertDescBy key a bs

/-- Stable sort, descending by `key`; embeds Counter.most_common's ordering. -/
def sortDescBy (key : α → Nat) : List α → List α
  | [] => []
  | a :: as => insertDescBy key a (sortDescBy key as)

/-- Embeds DocumentAnalyzer.analyze_content with the semantic scorer absent
(self.initialized = False), returning (main category, related categories,
summary).  The AI branch at lines 366-368 contributes nothing in that
configuration, so all_categories is exactly the keyword-analysis list. -/
def analyzeContent (lower : List Char → List Char) (wc : Char → Bool)
    (text : List Char) : String × List String × String :=
  if text.isEmpty || decide ((pyStrip text).length < 20) then
    ("Diğer_Belgeler", [], "İçerik yetersiz")
  else
    let kw := keywordAnalysis lower wc categoriesTable text
    if kw.isEmpty then ("Diğer_Belgeler", [], (createSummary 150 text).asString)
    else
      let sorted := sortDescBy (fun p => p.2) (counterList kw)
      let mainCat := (sorted.headD ("Diğer_Belgeler", 0)).1
      let related := ((sorted.take 3).filter (fun p => p.1 != mainCat)).map (fun p => p.1)
      (mainCat, related, (createSummary 150 text).asString)

/- ========== Concurrency governor (OrganizerWorker._optimize_thread_count) ========== -/

/-- One sample of system telemetry, as read at lines 1284-1293.  Percentages
are rationals; memoryTotalBytes is psutil.virtual_memory().total. -/
structure Telemetry where
  psutilOk : Bool
  cpuCountLogical : Nat
  cpuPercent : ℚ
  memoryPercent : ℚ
  memoryTotalBytes : Nat

/-- Line 1284: psutil.cpu_count(logical=True) or 2. -/
def effectiveCpuCount (tel : Telemetry) : Nat :=
  if tel.cpuCountLogical = 0 then 2 else tel.cpuCountLogical

/-- Lines 1295-1320: the per-tier worker ceiling, each tier also capped at
twice the logical core count. -/
def cpuTierLimit (tel : Telemetry) : Nat :=
  if effectiveCpuCount tel ≤ 4 then min 4 (effectiveCpuCount tel * 2)
  else if effectiveCpuCount tel ≤ 8 then min 8 (effectiveCpuCount tel * 2)
  else min 16 (effectiveCpuCount tel * 2)

/-- Embeds _optimize_thread_count.  int(n * 0.6) and int(n * 0.7) are the
floors 6*n/10 and 7*n/10 (the double rounding of 0.6 and 0.7 cannot move
the product across an integer for any feasible n), and
memory_gb < 4 is memoryTotalBytes < 4 * 1024^3. -/
def optimizeThreadCount (enableOpt : Bool) (tel : Telemetry)
    (totalFiles requestedThreads : Nat) : Nat :=
  if !enableOpt || !tel.psutilOk then min requestedThreads 32
  else
    let t1 := if totalFiles < requestedThreads * 2
      then max 1 (totalFiles / 2) else requestedThreads
    let t2 := if cpuTierLimit tel < t1 then cpuTierLimit tel else t1
    let t3 := if 70 < tel.cpuPercent then max 2 (6 * t2 / 10) else t2
    let t4 := if 80 < tel.memoryPercent then max 2 (7 * t3 / 10) else t3
    let t5 := if tel.memoryTotalBytes < 4 * 1024 ^ 3 then min t4 4 else t4
    max 1 (min t5 32)

/- ========== Work scheduler partitioning (_process_files_multithreaded) ========== -/

/-- Line 1451: chunk_size = (total + thread_count - 1) // thread_count. -/
def chunkSize (total k : Nat) : Nat := (total + k - 1) / k

/-- The slice files[i*cs : min(i*cs+cs, total)] submitted for worker i when
it is non-empty (lines 1452-1457). -/
def sliceAt (files : List α) (cs i : Nat) : Option (List α) :=
  let s := i * cs
  let e := min (s + cs) files.length
  if s < e then some ((files.drop s).take (e - s)) else none

/-- The list of chunks the scheduler submits, one per worker index. -/
def chunkSlices (files : List α) (k : Nat) : List (List α) :=
  (List.range k).filterMap (sliceAt files (chunkSize files.length k))

/- ========== Move engine (OrganizerWorker._move_file) ========== -/

/-- The candidate destination names tried by _move_file: the plain filename
first, then name_1.ext, name_2.ext, ... -/
def candidateName (name ext : String) : Nat → String
  | 0 => name ++ ext
  | Nat.succ k => name ++ "_" ++ toString (k + 1) ++ ext

/-- The while-loop of lines 1696-1700 over an existence test `ex`, with
explicit fuel (the loop terminates on a real file system because only
finitely many names exist). -/
def resolveFrom (ex : String → Bool) (name ext : String) : Nat → Nat → Option String
  | 0, _ => none
  | fuel + 1, i =>
    if ex (candidateName name ext i) then resolveFrom ex name ext fuel (i + 1)
    else some (candidateName name ext i)

/-- The destination path chosen by _move_file for a file called name+ext. -/
def moveDest (ex : String → Bool) (name ext : String) (fuel : Nat) : Option String :=
  resolveFrom ex name ext fuel 0

/- ========== File-system model: run moves and undo ========== -/

/-- A file system as a map from absolute path to the identity of the file
stored there (none = no file at that path). -/
abbrev FS := String → Option Nat

/-- shutil.move src -> dst on a same-device file system: the destination is
(over)written with the source file and the source path becomes empty. -/
def mv (src dst : String) (fs : FS) : FS :=
  fun p => if p = dst then fs src else if p = src then none else fs p

/-- The successful moves of one run, applied in order. -/
def applyMoves : FS → List (String × String) → FS
  | fs, [] => fs
  | fs, m :: rest => applyMoves (mv m.1 m.2 fs) rest

/-- What the worker guarantees for each recorded move (old_path, new_path):
the source existed and _move_file's collision loop chose a destination that
did not exist (lines 1696-1703), sequentially along the run. -/
def validRun : FS → List (String × String) → Bool
  | _, [] => true
  | fs, m :: rest => (fs m.1).isSome && (fs m.2).isNone && validRun (mv m.1 m.2 fs) rest

/-- Embeds the undo loop of undo_action lines 2843-2851: the movements are
replayed in their original order; a record is reversed only when its
new_path still exists, and the success counter counts the reversals. -/
def undoMoves : FS → List (String × String) → FS × Nat
  | fs, [] => (fs, 0)
  | fs, m :: rest =>
    if (fs m.2).isSome then
      ((undoMoves (mv m.2 m.1 fs) rest).1, (undoMoves (mv m.2 m.1 fs) rest).2 + 1)
    else undoMoves fs rest

/-- Pairwise separation of a run's records: all old paths, and all new
paths, are distinct from each other and from one another.  The run itself
guarantees every part of this except that a later destination differs from
an earlier (vacated) original path. -/
def sepMoves : List (String × String) → Bool
  | [] => true
  | m :: rest =>
    m.1 != m.2 &&
    rest.all (fun n => n.1 != m.1 && n.2 != m.2 && n.1 != m.2 && n.2 != m.1) &&
    sepMoves rest

/-- Embeds _save_log lines 1749-1752: append the new run record to the
persisted history, then keep only the last 5 records. -/
def saveLog (hist : List α) (r : α) : List α :=
  let l := hist ++ [r]
  if 5 < l.length then l.drop (l.length - 5) else l

/- ========== Worker chunk processing (_process_file_chunk) ========== -/

/-- The outcome of processing one file inside the try-block: either the file
was moved (new path, full category, size at destination, detected objects),
or some step raised an exception carrying the formatted message. -/
inductive FileOutcome where
  | moved : String → String → Nat → List String → FileOutcome
  | failed : String → FileOutcome

/-- dict.get(k, 0) + 1 update of an ordered histogram. -/
def bumpCount : List (String × Nat) → String → List (String × Nat)
  | [], k => [(k, 1)]
  | (k0, v) :: rest, k =>
    if k0 = k then (k0, v + 1) :: rest else (k0, v) :: bumpCount rest k

/-- The shared statistics touched by _process_file_chunk, plus the in-memory
move log (old path, new path, full category). -/
structure RunStats where
  processedFiles : Nat
  skippedFiles : Nat
  totalSize : Nat
  categoryDistribution : List (String × Nat)
  detectedObjects : List (String × Nat)
  errors : List String
  logEntries : List (String × String × String)
deriving DecidableEq

/-- The per-file body of _process_file_chunk: the success branch of lines
1515-1535, and the except branch of lines 1542-1546. -/
def processOne (filepath : String) (out : FileOutcome) (st : RunStats) : RunStats :=
  match out with
  | FileOutcome.moved newPath fullCategory size objs =>
    ⟨st.processedFiles + 1, st.skippedFiles, st.totalSize + size,
     bumpCount st.categoryDistribution fullCategory,
     objs.foldl bumpCount st.detectedObjects,
     st.errors,
     st.logEntries ++ [(filepath, newPath, fullCategory)]⟩
  | FileOutcome.failed msg =>
    ⟨st.processedFiles, st.skippedFiles + 1, st.totalSize,
     st.categoryDistribution, st.detectedObjects,
     st.errors ++ [msg], st.logEntries⟩

/-- The for-loop of _process_file_chunk over one chunk, with the fate of
each file given by the oracle `act`. -/
def processChunk (act : String → FileOutcome) (st : RunStats)
    (chunk : List String) : RunStats :=
  chunk.foldl (fun s f => processOne f (act f) s) st

/- ========== Image classification (_detect_objects, _determine_ai_category) ========== -/

/-- The object-recognition keyword vocabulary of _detect_objects. -/
def objectKeywords : List String :=
  ["car", "truck", "vehicle", "automobile", "bus", "motorcycle", "bicycle", "bike",
   "chair", "table", "desk", "furniture", "sofa", "couch", "bed",
   "computer", "laptop", "phone", "smartphone", "tablet", "monitor", "screen",
   "building", "house", "home", "apartment", "skyscraper", "office",
   "tree", "plant", "flower", "forest", "wood", "nature",
   "mountain", "hill", "valley", "landscape", "scenery",
   "food", "fruit", "vegetable", "meal", "dish", "drink", "water", "coffee", "tea",
   "clothing", "shirt", "pants", "dress", "shoe", "jacket", "hat",
   "sport", "football", "soccer", "basketball", "tennis", "golf", "swimming",
   "music", "guitar", "piano", "violin", "drum", "instrument", "song",
   "book", "document", "paper", "text", "writing", "letter",
   "tool", "hammer", "screwdriver", "wrench", "drill", "saw",
   "art", "painting", "drawing", "sculpture", "statue", "picture", "photo",
   "person", "man", "woman", "child", "baby", "people", "human",
   "animal", "dog", "cat", "bird", "fish", "horse", "elephant", "lion",
   "sky", "cloud", "sun", "moon", "star", "weather", "rain",
   "water", "sea", "ocean", "river", "lake", "beach", "wave",
   "city", "street", "road", "highway", "bridge", "park", "garden"]

/-- Substring test on character lists (Python's `sub in word`). -/
def listHasSub (sub l : List Char) : Bool :=
  l.tails.any (fun t => sub.isPrefixOf t)

/-- The match score of lines 1657-1667 in half units: an exact word match
counts 2 halves, a substring match inside a caption word longer than 3
characters counts 1 half; keyword words of length at most 3 count 0. -/
def keywordMatchHalves (captionWords : List (List Char)) (kw : List Char) : Nat :=
  ((splitWs kw).map (fun w =>
    if 3 < w.length then
      if captionWords.contains w then 2
      else if captionWords.any (fun cw => decide (3 < cw.length) && listHasSub w cw) then 1
      else 0
    else 0)).sum

/-- Embeds _detect_objects: keep, in vocabulary order, every keyword whose
match ratio reaches threshold_percent/100 (in halves:
thresholdPercent * #words <= 50 * halves), truncated to maxObjects. -/
def detectObjects (lower : List Char → List Char)
    (thresholdPercent maxObjects : Nat) (caption : List Char) : List String :=
  let captionWords := splitWs (lower caption)
  ((objectKeywords.filter (fun kw =>
    let kwWords := splitWs kw.data
    !kwWords.isEmpty &&
      decide (thresholdPercent * kwWords.length ≤ 50 * keywordMatchHalves captionWords kw.data))).take
    maxObjects)

/-- Embeds Python str.capitalize(): first character upper-cased, all
remaining characters lower-cased. -/
def pyCapitalize : List Char → List Char
  | [] => []
  | c :: cs => c.toUpper :: cs.map Char.toLower

/-- Embeds _determine_ai_category: with no detected objects, join the first
two caption words longer than 3 characters (capitalize, cut to 20 chars),
or "Genel" when there is no such word; with detected objects, compose the
name from the first one or two objects. -/
def determineAiCategory (objects : List String) (caption : List Char) : List Char :=
  match objects with
  | [] =>
    let words := (splitWs caption).filter (fun w => decide (3 < w.length))
    if words.isEmpty then "Genel".data
    else (pyCapitalize (List.intercalate ['_'] (words.take 2))).take 20
  | [o] => pyCapitalize o.data
  | o0 :: o1 :: _ => pyCapitalize (o0.data ++ '_' :: o1.data)

/-- Modelled from the spec: section 4.1 says the fallback category is
derived from "the two longest caption words".  The two longest words are
taken by a stable descending sort on length; the formatting (underscore
join, capitalize, 20-character cut) is kept identical to the code so that
only the choice of words is compared. -/
def specFallbackTwoLongest (caption : List Char) : List Char :=
  let ws := splitWs caption
  (pyCapitalize (List.intercalate ['_'] ((sortDescBy List.length ws).take 2))).take 20

/- ========== Concrete instances used by counterexamples and witnesses ========== -/

/-- ASCII instantiation of the character-class parameter \w. -/
def asciiWordChar (c : Char) : Bool := c.isAlphanum || c = '_'

/-- Telemetry for the C2 counterexample: 8 logical cores, CPU at 80 percent,
memory at 50 percent, 8 GiB of RAM. -/
def c2Telemetry : Telemetry := ⟨true, 8, 80, 50, 8 * 1024 ^ 3⟩

/-- Telemetry for the C2 witness: an idle 8-core machine with 8 GiB. -/
def c2IdleTelemetry : Telemetry := ⟨true, 8, 50, 50, 8 * 1024 ^ 3⟩

/-- Initial file system of the C1 counterexample: a document sitting inside
the would-be category folder Finans, and another of the same name in a
subfolder. -/
def c1CexFS : FS := fun p =>
  if p = "d/Finans/rapor.txt" then some 1
  else if p = "d/x/rapor.txt" then some 2
  else none

/-- The two recorded moves of the C1 counterexample run (document mode):
file 1 is classified Eğitim and leaves Finans; file 2 is classified Finans
and lands exactly on file 1's vacated original path. -/
def c1CexMoves : List (String × String) :=
  [("d/Finans/rapor.txt", "d/Eğitim/rapor.txt"),
   ("d/x/rapor.txt", "d/Finans/rapor.txt")]

/-- Initial file system of the C1 witness. -/
def c1WitFS : FS := fun p =>
  if p = "d/a.txt" then some 1 else if p = "d/b.txt" then some 2 else none

/-- Moves of the C1 witness run. -/
def c1WitMoves : List (String × String) :=
  [("d/a.txt", "d/Belgeler/a.txt"), ("d/b.txt", "d/Belgeler/b.txt")]

/-- Existence test of the C4 witness: a.txt and a_1.txt are taken. -/
def c4Exists : String → Bool := fun s => s == "a.txt" || s == "a_1.txt"

/-- Oracle of the C7 witness: every file fails with a formatted message. -/
def c7Act : String → FileOutcome := fun f => FileOutcome.failed (f ++ ": boom")

/-- Starting statistics of the C7 witness. -/
def c7Stats : RunStats := ⟨3, 1, 100, [("Belgeler", 3)], [], ["old: err"], []⟩

/-- Caption of the C9 counterexample: the first two words longer than 3
characters are not the two longest words. -/
def c9Caption : List Char := "abcd efgh zzzzzzzz".data

/-- Caption of the C9 witness: no vocabulary keyword matches it. -/
def c9WitCaption : List Char := "xyzq qwer".data

/- ==================== Theorems ==================== -/

/- ---------- C2: concurrency governor ---------- -/

theorem cpuTierLimit_le_16 (tel : Telemetry) : cpuTierLimit tel ≤ 16 := by
  unfold cpuTierLimit effectiveCpuCount
  split_ifs <;> omega

/-- C2 counterexample: with one requested worker, 100 files, an 8-core
machine at 80 percent CPU, the optimizer returns 2, which exceeds
min(requested, 32) = 1.  Rule 3's max(2, int(n*0.6)) can raise the count
above the request, so the claimed range [1, min(requested, 32)] is wrong. -/
theorem c2_counterexample :
    optimizeThreadCount true c2Telemetry 100 1 = 2 ∧
    ¬(optimizeThreadCount true c2Telemetry 100 1 ≤ min 1 32) := by
  constructor
  · decide
  · decide

/-- C2 (amended): for every requested count > 0 and every telemetry the
optimizer returns a value in [1, 32] (not [1, min(requested, 32)]); when
optimization is disabled or psutil is missing it returns min(requested, 32);
and when fewer than 2 files per requested worker are present and no other
rule fires, it returns max(1, files/2). -/
theorem c2_worker_count_bounds (enableOpt : Bool) (tel : Telemetry)
    (files req : Nat) (hreq : 1 ≤ req) :
    (1 ≤ optimizeThreadCount enableOpt tel files req ∧
      optimizeThreadCount enableOpt tel files req ≤ 32) ∧
    (enableOpt = false ∨ tel.psutilOk = false →
      optimizeThreadCount enableOpt tel files req = min req 32) ∧
    (enableOpt = true → tel.psutilOk = true → files < req * 2 →
      max 1 (files / 2) ≤ cpuTierLimit tel → tel.cpuPercent ≤ 70 →
      tel.memoryPercent ≤ 80 → 4 * 1024 ^ 3 ≤ tel.memoryTotalBytes →
      optimizeThreadCount enableOpt tel files req = max 1 (files / 2)) := by
  refine ⟨?_, ?_, ?_⟩
  · unfold optimizeThreadCount
    split
    · omega
    · exact ⟨Nat.le_max_left _ _, max_le (by omega) (min_le_right _ _)⟩
  · intro h
    have hb : (!enableOpt || !tel.psutilOk) = true := by
      rcases h with h | h <;> simp [h]
    unfold optimizeThreadCount
    simp [hb]
  · intro he hp hf hcl hcpu hmem hbytes
    have hcl2 : ¬(cpuTierLimit tel < max 1 (files / 2)) := not_lt.mpr hcl
    have hcpu2 : ¬((70 : ℚ) < tel.cpuPercent) := not_lt.mpr hcpu
    have hmem2 : ¬((80 : ℚ) < tel.memoryPercent) := not_lt.mpr hmem
    have hb2 : ¬(tel.memoryTotalBytes < 4 * 1024 ^ 3) := not_lt.mpr hbytes
    have ht := cpuTierLimit_le_16 tel
    unfold optimizeThreadCount
    simp only [he, hp, Bool.not_true, Bool.or_self, Bool.false_eq_true, if_false]
    simp only [if_pos hf, if_neg hcl2, if_neg hcpu2, if_neg hmem2, if_neg hb2]
    omega

/-- C2 witness: an idle 8-core 8-GiB machine, 3 files, 4 requested workers;
the optimizer returns max(1, 3/2) = 1. -/
theorem c2_witness :
    1 ≤ 4 ∧ optimizeThreadCount true c2IdleTelemetry 3 4 = max 1 (3 / 2) := by
  refine ⟨by decide, ?_⟩
  have h := c2_worker_count_bounds true c2IdleTelemetry 3 4 (by decide)
  exact h.2.2 rfl rfl (by decide) (by decide) (by decide) (by decide) (by decide)

/- ---------- C3: scheduler partitioning ---------- -/

theorem le_mul_ceilDiv (n k : Nat) (hk : 1 ≤ k) : n ≤ k * ((n + k - 1) / k) := by
  have hm := Nat.div_add_mod (n + k - 1) k
  have hlt : (n + k - 1) % k < k := Nat.mod_lt _ hk
  revert hm
  generalize k * ((n + k - 1) / k) = m
  intro hm
  omega

theorem sliceAt_flatten (files : List α) (cs : Nat) (hcs : 0 < cs) :
    ∀ k, ((List.range k).filterMap (sliceAt files cs)).flatten = files.take (k * cs) := by
  intro k
  induction k with
  | zero => simp
  | succ k ih =>
    rw [List.range_succ, List.filterMap_append, List.flatten_append, ih]
    by_cases hk : k * cs < files.length
    · have hcond : k * cs < min (k * cs + cs) files.length := by omega
      have hslice : List.filterMap (sliceAt files cs) [k] =
          [(files.drop (k * cs)).take (min (k * cs + cs) files.length - k * cs)] := by
        simp [sliceAt, hcond]
      rw [hslice]
      simp only [List.flatten_cons, List.flatten_nil, List.append_nil]
      rw [Nat.succ_mul, List.take_add]
      congr 1
      rw [List.take_eq_take]
      simp only [List.length_drop]
      omega
    · have hcond : ¬(k * cs < min (k * cs + cs) files.length) := by omega
      have hslice : List.filterMap (sliceAt files cs) [k] = [] := by
        simp [sliceAt, hcond]
      rw [hslice]
      simp only [List.flatten_nil, List.append_nil]
      rw [List.take_eq_take]
      rw [Nat.succ_mul]
      omega

/-- C3: for every file list and worker count >= 1 the scheduler's chunks
concatenate, in order, to exactly the input list (so they are disjoint
index ranges covering every file once and preserving input order), and the
chunk lengths sum to the input length. -/
theorem c3_chunk_partition (files : List α) (k : Nat) (hk : 1 ≤ k) :
    (chunkSlices files k).flatten = files ∧
    ((chunkSlices files k).map List.length).sum = files.length := by
  have hmain : (chunkSlices files k).flatten = files := by
    by_cases hn : files.length = 0
    · have hnil : files = [] := List.length_eq_zero.mp hn
      subst hnil
      simp [chunkSlices, sliceAt]
    · have hcs : 0 < chunkSize files.length k := by
        unfold chunkSize
        exact (Nat.one_le_div_iff hk).mpr (by omega)
      rw [chunkSlices, sliceAt_flatten files _ hcs k]
      exact List.take_of_length_le (le_mul_ceilDiv files.length k hk)
  refine ⟨hmain, ?_⟩
  have hlen := congrArg List.length hmain
  rw [List.length_flatten] at hlen
  exact hlen

/-- C3 witness: three files split over two workers give chunks [10, 20]
and [30]. -/
theorem c3_witness :
    (1 : Nat) ≤ 2 ∧
    ((chunkSlices [10, 20, 30] 2).flatten = [10, 20, 30] ∧
      ((chunkSlices [10, 20, 30] 2).map List.length).sum = 3) := by
  exact ⟨by decide, c3_chunk_partition [10, 20, 30] 2 (by decide)⟩

/- ---------- C4: move-engine collision resolution ---------- -/

theorem resolveFrom_spec (ex : String → Bool) (name ext : String) :
    ∀ (fuel i : Nat) (d : String), resolveFrom ex name ext fuel i = some d →
      ∃ k, i ≤ k ∧ d = candidateName name ext k ∧ ex d = false ∧
        ∀ j, i ≤ j → j < k → ex (candidateName name ext j) = true := by
  intro fuel
  induction fuel with
  | zero => intro i d h; simp [resolveFrom] at h
  | succ fuel ih =>
    intro i d h
    unfold resolveFrom at h
    by_cases hex : ex (candidateName name ext i) = true
    · rw [if_pos hex] at h
      obtain ⟨k, hik, hd, hfree, hall⟩ := ih (i + 1) d h
      refine ⟨k, by omega, hd, hfree, fun j hij hjk => ?_⟩
      rcases Nat.eq_or_lt_of_le hij with heq | hlt
      · rw [← heq]; exact hex
      · exact hall j hlt hjk
    · rw [if_neg hex] at h
      have hd : d = candidateName name ext i := by
        cases h; rfl
      refine ⟨i, Nat.le_refl i, hd, ?_, fun j hij hji => by omega⟩
      rw [hd]
      exact Bool.not_eq_true _ ▸ eq_false_of_ne_true hex

/-- C4: whenever _move_file's collision loop returns a destination, that
destination did not exist beforehand (so nothing is overwritten), it is the
plain filename or a name_k.ext candidate and every earlier candidate was
taken; and a second move resolved after the first one landed (its
destination now exists) returns a different path. -/
theorem c4_collision_resolution (ex : String → Bool) (name ext : String)
    (fuel : Nat) (d : String) (h : moveDest ex name ext fuel = some d) :
    ex d = false ∧
    (∃ k, d = candidateName name ext k ∧
      ∀ j, j < k → ex (candidateName name ext j) = true) ∧
    (∀ (name2 ext2 : String) (fuel2 : Nat) (d2 : String),
      moveDest (fun s => ex s || (s == d)) name2 ext2 fuel2 = some d2 → d2 ≠ d) := by
  obtain ⟨k, _, hd, hfree, hall⟩ := resolveFrom_spec ex name ext fuel 0 d h
  refine ⟨hfree, ⟨k, hd, fun j hj => hall j (Nat.zero_le j) hj⟩, ?_⟩
  intro name2 ext2 fuel2 d2 h2 hEq
  obtain ⟨k2, _, _, hfree2, _⟩ := resolveFrom_spec _ name2 ext2 fuel2 0 d2 h2
  rw [hEq] at hfree2
  simp at hfree2

/-- C4 witness: with a.txt and a_1.txt taken, the move resolves to a_2.txt,
which did not exist. -/
theorem c4_witness :
    moveDest c4Exists "a" ".txt" 5 = some "a_2.txt" ∧ c4Exists "a_2.txt" = false := by
  have h : moveDest c4Exists "a" ".txt" 5 = some "a_2.txt" := by decide
  exact ⟨h, (c4_collision_resolution c4Exists "a" ".txt" 5 "a_2.txt" h).1⟩

/- ---------- C6: bounded run history ---------- -/

/-- C6: saving one more run record keeps at most 5 records, the newest
record is last, and when the history already held 5 records the result is
those records minus the oldest plus the new one. -/
theorem c6_history_bound {α : Type} (hist : List α) (r : α) :
    (saveLog hist r).length ≤ 5 ∧
    (saveLog hist r).getLast? = some r ∧
    (hist.length = 5 → saveLog hist r = hist.drop 1 ++ [r]) := by
  unfold saveLog
  by_cases h : 5 < (hist ++ [r]).length
  · rw [if_pos h]
    have hlen : (hist ++ [r]).length = hist.length + 1 := by simp
    have hm : (hist ++ [r]).length - 5 ≤ hist.length := by omega
    rw [List.drop_append_of_le_length hm]
    refine ⟨?_, List.getLast?_concat _, ?_⟩
    · simp only [List.length_append, List.length_drop, List.length_cons,
        List.length_nil]
      omega
    · intro h5
      have : (hist ++ [r]).length - 5 = 1 := by omega
      rw [this]
  · rw [if_neg h]
    have hlen : (hist ++ [r]).length = hist.length + 1 := by simp
    refine ⟨by omega, List.getLast?_concat _, ?_⟩
    intro h5
    omega

/-- C6 witness: a full history of 5 records evicts the oldest. -/
theorem c6_witness :
    (["a", "b", "c", "d", "e"] : List String).length = 5 ∧
    saveLog ["a", "b", "c", "d", "e"] "f" = ["b", "c", "d", "e", "f"] := by
  refine ⟨by decide, ?_⟩
  have h := (c6_history_bound ["a", "b", "c", "d", "e"] "f").2.2 (by decide)
  rw [h]
  decide

/- ---------- C7: per-file error isolation ---------- -/

/-- C7: when processing one file of a chunk fails with message msg, the
worker appends msg to the error list, increments the skipped counter, and
processing continues with the remaining files of the chunk; the
chunk-processing function is total, so the failure never propagates. -/
theorem c7_error_isolation (act : String → FileOutcome) (st : RunStats)
    (f : String) (rest : List String) (msg : String)
    (h : act f = FileOutcome.failed msg) :
    processChunk act st (f :: rest) =
      processChunk act
        ⟨st.processedFiles, st.skippedFiles + 1, st.totalSize,
         st.categoryDistribution, st.detectedObjects,
         st.errors ++ [msg], st.logEntries⟩ rest := by
  simp [processChunk, processOne, h]

/-- C7 witness: a failing file leaves the counters and error list updated
and the rest of the chunk still processed. -/
theorem c7_witness :
    c7Act "f1" = FileOutcome.failed "f1: boom" ∧
    processChunk c7Act c7Stats ["f1", "f2"] =
      processChunk c7Act
        ⟨3, 2, 100, [("Belgeler", 3)], [], ["old: err", "f1: boom"], []⟩ ["f2"] := by
  exact ⟨rfl, c7_error_isolation c7Act c7Stats "f1" ["f2"] "f1: boom" rfl⟩

/- ---------- C8: classification determinism ---------- -/

/-- C8: content analysis is a pure function of the text and configuration;
two calls on identical text return the same main category, related list
and summary. -/
theorem c8_deterministic (lower : List Char → List Char) (wc : Char → Bool)
    (t1 t2 : List Char) (h : t1 = t2) :
    analyzeContent lower wc t1 = analyzeContent lower wc t2 := by
  rw [h]

/-- C8 witness: the determinism theorem applied at a concrete text. -/
theorem c8_witness :
    "fatura fatura".data = "fatura fatura".data ∧
    analyzeContent id asciiWordChar "fatura fatura".data =
      analyzeContent id asciiWordChar "fatura fatura".data :=
  ⟨rfl, c8_deterministic id asciiWordChar "fatura fatura".data "fatura fatura".data rfl⟩

/- ---------- C5 and C10: keyword analysis ---------- -/

theorem splitWsAux_no_ws :
    ∀ (l acc : List Char), (∀ c ∈ acc, c.isWhitespace = false) →
      ∀ w ∈ splitWsAux acc l, ∀ c ∈ w, c.isWhitespace = false := by
  intro l
  induction l with
  | nil =>
    intro acc hacc w hw c hc
    unfold splitWsAux at hw
    by_cases ha : acc.isEmpty
    · rw [if_pos ha] at hw
      simp at hw
    · rw [if_neg ha] at hw
      simp only [List.mem_singleton] at hw
      subst hw
      exact hacc c (List.mem_reverse.mp hc)
  | cons ch cs ih =>
    intro acc hacc w hw c hc
    unfold splitWsAux at hw
    by_cases hch : ch.isWhitespace = true
    · rw [if_pos hch] at hw
      by_cases ha : acc.isEmpty
      · rw [if_pos ha] at hw
        exact ih [] (by simp) w hw c hc
      · rw [if_neg ha] at hw
        rcases List.mem_cons.mp hw with heq | hmem
        · subst heq
          exact hacc c (List.mem_reverse.mp hc)
        · exact ih [] (by simp) w hmem c hc
    · rw [if_neg hch] at hw
      refine ih (ch :: acc) ?_ w hw c hc
      intro x hx
      rcases List.mem_cons.mp hx with hx | hx
      · subst hx
        exact eq_false_of_ne_true hch
      · exact hacc x hx

theorem splitWs_no_ws (l : List Char) :
    ∀ w ∈ splitWs l, ∀ c ∈ w, c.isWhitespace = false :=
  splitWsAux_no_ws l [] (by simp)

theorem bad_keyword_count_zero (lower : List Char → List Char) (wc : Char → Bool)
    (text : List Char) (kw : List Char) (hbad : ' ' ∈ kw ∨ kw.length ≤ 2) :
    (filteredWords lower wc text).count kw = 0 := by
  rw [List.count_eq_zero]
  intro hmem
  have hmem2 := List.mem_filter.mp hmem
  rcases hbad with hsp | hlen
  · have hws := splitWs_no_ws (cleanText wc (lower text)) kw hmem2.1 ' ' hsp
    simp at hws
  · have hp := (Bool.and_eq_true _ _).mp hmem2.2
    have hgt := of_decide_eq_true hp.2
    omega

theorem categoryScore_filter (lower : List Char → List Char) (wc : Char → Bool)
    (text : List Char) (kws : List String) :
    categoryScore lower wc (kws.filter goodKeyword) text =
    categoryScore lower wc kws text := by
  induction kws with
  | nil => rfl
  | cons k t ih =>
    by_cases hk : goodKeyword k = true
    · rw [List.filter_cons_of_pos hk]
      simp only [categoryScore, List.map_cons, List.sum_cons]
      simp only [categoryScore] at ih
      omega
    · rw [List.filter_cons_of_neg hk]
      have hbad : ' ' ∈ k.data ∨ k.data.length ≤ 2 := by
        by_cases hc : k.data.contains ' ' = true
        · exact Or.inl (List.elem_iff.mp hc)
        · refine Or.inr ?_
          have hdf : decide (2 < k.data.length) = false := by
            rcases Bool.eq_false_or_eq_true (decide (2 < k.data.length)) with h | h
            · exfalso
              apply hk
              unfold goodKeyword
              rw [Bool.and_eq_true]
              refine ⟨?_, h⟩
              rw [Bool.not_eq_true']
              exact eq_false_of_ne_true hc
            · exact h
          have := of_decide_eq_false hdf
          omega
      have h0 := bad_keyword_count_zero lower wc text k.data hbad
      simp only [categoryScore, List.map_cons, List.sum_cons, h0]
      simp only [categoryScore] at ih
      omega

theorem keywordAnalysis_cleaned (lower : List Char → List Char) (wc : Char → Bool)
    (text : List Char) :
    ∀ tbl : List (String × List String),
      keywordAnalysis lower wc (tbl.map (fun p => (p.1, p.2.filter goodKeyword))) text =
      keywordAnalysis lower wc tbl text := by
  intro tbl
  induction tbl with
  | nil => rfl
  | cons p t ih =>
    simp only [List.map_cons]
    unfold keywordAnalysis
    unfold keywordAnalysis at ih
    rw [List.filter_cons, List.filter_cons]
    have hs : (decide (2 ≤ categoryScore lower wc (p.1, p.2.filter goodKeyword).2 text)) =
        (decide (2 ≤ categoryScore lower wc p.2 text)) := by
      simp only []
      rw [categoryScore_filter]
    rw [hs]
    by_cases hcond : (decide (2 ≤ categoryScore lower wc p.2 text)) = true
    · rw [if_pos hcond, if_pos hcond]
      simp only [List.map_cons]
      rw [ih]
    · rw [if_neg hcond, if_neg hcond]
      exact ih

/-- C10: keyword analysis only credits single whitespace-free tokens longer
than 2 characters: any keyword containing a space or of length at most 2
contributes 0 to every category's score, and removing all such keywords
from the category table leaves the detected-category list unchanged for
every input text. -/
theorem c10_short_and_spaced_keywords (lower : List Char → List Char)
    (wc : Char → Bool) (text : List Char) :
    (∀ kw : String, ' ' ∈ kw.data ∨ kw.data.length ≤ 2 →
      (filteredWords lower wc text).count kw.data = 0) ∧
    keywordAnalysis lower wc cleanedCategoriesTable text =
      keywordAnalysis lower wc categoriesTable text := by
  refine ⟨fun kw h => bad_keyword_count_zero lower wc text kw.data h, ?_⟩
  exact keywordAnalysis_cleaned lower wc text categoriesTable

/-- C10 witness: the multi-word keyword "machine learning" is never counted,
and on a text detecting Teknik the cleaned table gives the same result. -/
theorem c10_witness :
    (' ' ∈ "machine learning".data ∨ "machine learning".data.length ≤ 2) ∧
    (filteredWords id asciiWordChar "veri veri".data).count "machine learning".data = 0 ∧
    keywordAnalysis id asciiWordChar cleanedCategoriesTable "veri veri".data =
      keywordAnalysis id asciiWordChar categoriesTable "veri veri".data := by
  have h := c10_short_and_spaced_keywords id asciiWordChar "veri veri".data
  exact ⟨Or.inl (by decide), h.1 "machine learning" (Or.inl (by decide)), h.2⟩

theorem fst_nodup_snd_eq :
    ∀ (l : List (String × List String)), (l.map Prod.fst).Nodup →
      ∀ (a : String) (b1 b2 : List String), (a, b1) ∈ l → (a, b2) ∈ l → b1 = b2 := by
  intro l
  induction l with
  | nil =>
    intro _ a b1 b2 h1
    simp at h1
  | cons p t ih =>
    intro hnd a b1 b2 h1 h2
    simp only [List.map_cons, List.nodup_cons] at hnd
    rcases List.mem_cons.mp h1 with h1 | h1 <;> rcases List.mem_cons.mp h2 with h2 | h2
    · rw [← h1] at h2
      exact (Prod.mk.injEq _ _ _ _ |>.mp h2.symm).2
    · exfalso
      apply hnd.1
      rw [← h1]
      exact List.mem_map.mpr ⟨(a, b2), h2, rfl⟩
    · exfalso
      apply hnd.1
      rw [← h2]
      exact List.mem_map.mpr ⟨(a, b1), h1, rfl⟩
    · exact ih hnd.2 a b1 b2 h1 h2

/-- C5: if the keywords of a configured category occur fewer than 2 times in
total in a text, keyword analysis does not put that category in the
detected list. -/
theorem c5_keyword_threshold (lower : List Char → List Char) (wc : Char → Bool)
    (text : List Char) (cat : String) (kws : List String)
    (hmem : (cat, kws) ∈ categoriesTable)
    (hscore : categoryScore lower wc kws text < 2) :
    cat ∉ keywordAnalysis lower wc categoriesTable text := by
  intro hdet
  unfold keywordAnalysis at hdet
  obtain ⟨p, hp, hfst⟩ := List.mem_map.mp hdet
  have hpf := List.mem_filter.mp hp
  have hnd : (categoriesTable.map Prod.fst).Nodup := by decide
  obtain ⟨p1, p2⟩ := p
  have hfst2 : p1 = cat := hfst
  subst hfst2
  have heq : p2 = kws := fst_nodup_snd_eq categoriesTable hnd p1 p2 kws hpf.1 hmem
  have h2 : 2 ≤ categoryScore lower wc p2 text := of_decide_eq_true hpf.2
  rw [heq] at h2
  omega

/-- C5 witness: on the empty text the Finans score is 0, so Finans is not
detected. -/
theorem c5_witness :
    (("Finans", finansKeywords) ∈ categoriesTable) ∧
    categoryScore id asciiWordChar finansKeywords [] < 2 ∧
    "Finans" ∉ keywordAnalysis id asciiWordChar categoriesTable [] := by
  have hmem : ("Finans", finansKeywords) ∈ categoriesTable :=
    List.mem_cons_self _ _
  exact ⟨hmem, by decide,
    c5_keyword_threshold id asciiWordChar [] "Finans" finansKeywords hmem (by decide)⟩

/- ---------- C9: image classification fallback ---------- -/

/-- C9 counterexample: for the caption "abcd efgh zzzzzzzz" the code joins
the FIRST two words longer than 3 characters ("Abcd_efgh"), not the two
LONGEST words ("Zzzzzzzz_abcd") that the claim describes. -/
theorem c9_counterexample :
    determineAiCategory [] c9Caption = "Abcd_efgh".data ∧
    specFallbackTwoLongest c9Caption = "Zzzzzzzz_abcd".data ∧
    determineAiCategory [] c9Caption ≠ specFallbackTwoLongest c9Caption := by
  exact ⟨by decide, by decide, by decide⟩

/-- C9 (amended): when zero objects pass the detection threshold the
category is built from the first two caption words longer than 3
characters, in caption order (capitalized, cut to 20 characters; "Genel"
when no such word exists); with one detected object the category is that
object capitalized, and with two or more it is the first two objects
joined by an underscore, capitalized. -/
theorem c9_ai_category (lower : List Char → List Char) (pct mx : Nat)
    (caption : List Char) :
    (detectObjects lower pct mx caption = [] →
      determineAiCategory (detectObjects lower pct mx caption) caption =
        (if ((splitWs caption).filter (fun w => decide (3 < w.length))).isEmpty
          then "Genel".data
          else (pyCapitalize (List.intercalate ['_']
            (((splitWs caption).filter (fun w => decide (3 < w.length))).take 2))).take 20)) ∧
    (∀ o, detectObjects lower pct mx caption = [o] →
      determineAiCategory (detectObjects lower pct mx caption) caption =
        pyCapitalize o.data) ∧
    (∀ o0 o1 rest, detectObjects lower pct mx caption = o0 :: o1 :: rest →
      determineAiCategory (detectObjects lower pct mx caption) caption =
        pyCapitalize (o0.data ++ '_' :: o1.data)) := by
  refine ⟨?_, ?_, ?_⟩
  · intro h
    rw [h]
    rfl
  · intro o h
    rw [h]
    rfl
  · intro o0 o1 rest h
    rw [h]
    rfl

/-- C9 witness: a caption matching no vocabulary keyword falls back to its
first two words longer than 3 characters. -/
theorem c9_witness :
    detectObjects id 30 3 c9WitCaption = [] ∧
    determineAiCategory (detectObjects id 30 3 c9WitCaption) c9WitCaption =
      "Xyzq_qwer".data := by
  have h : detectObjects id 30 3 c9WitCaption = [] := by decide
  refine ⟨h, ?_⟩
  have h2 := (c9_ai_category id 30 3 c9WitCaption).1 h
  rw [h2]
  decide

/- ---------- C1: undo round-trip ---------- -/

theorem mv_dst (src dst : String) (fs : FS) : mv src dst fs dst = fs src := by
  simp [mv]

theorem mv_other (src dst p : String) (fs : FS) (h1 : p ≠ dst) (h2 : p ≠ src) :
    mv src dst fs p = fs p := by
  simp [mv, h1, h2]

theorem run_preserves_occupied :
    ∀ (ms : List (String × String)) (fs : FS) (p : String),
      (fs p).isSome = true → validRun fs ms = true → (∀ m ∈ ms, m.1 ≠ p) →
      (∀ m ∈ ms, m.2 ≠ p) ∧ applyMoves fs ms p = fs p := by
  intro ms
  induction ms with
  | nil =>
    intro fs p _ _ _
    exact ⟨by simp, rfl⟩
  | cons m rest ih =>
    intro fs p hocc hv hsrc
    simp only [validRun, Bool.and_eq_true] at hv
    obtain ⟨⟨hS, hN⟩, hV⟩ := hv
    rw [Option.isNone_iff_eq_none] at hN
    have hne2 : m.2 ≠ p := by
      intro he
      rw [he] at hN
      rw [hN] at hocc
      simp at hocc
    have hne1 : m.1 ≠ p := hsrc m (List.mem_cons_self m rest)
    have hmv : (mv m.1 m.2 fs) p = fs p :=
      mv_other m.1 m.2 p fs (Ne.symm hne2) (Ne.symm hne1)
    have hocc2 : ((mv m.1 m.2 fs) p).isSome = true := by
      rw [hmv]
      exact hocc
    have hrec := ih (mv m.1 m.2 fs) p hocc2 hV
      (fun x hx => hsrc x (List.mem_cons_of_mem m hx))
    refine ⟨?_, ?_⟩
    · intro x hx
      rcases List.mem_cons.mp hx with he | hx2
      · rw [he]
        exact hne2
      · exact hrec.1 x hx2
    · simp only [applyMoves]
      rw [hrec.2, hmv]

theorem mv_comm (a b c d : String) (g : FS) (hab : a ≠ b) (hcd : c ≠ d)
    (hac : a ≠ c) (had : a ≠ d) (hbc : b ≠ c) (hbd : b ≠ d) :
    mv a b (mv c d g) = mv c d (mv a b g) := by
  have h5 : c ≠ a := Ne.symm hac
  have h6 : d ≠ a := Ne.symm had
  have h7 : c ≠ b := Ne.symm hbc
  have h8 : d ≠ b := Ne.symm hbd
  have h9 : b ≠ a := Ne.symm hab
  have h10 : d ≠ c := Ne.symm hcd
  funext p
  by_cases h1 : p = b <;> by_cases h2 : p = d <;> by_cases h3 : p = a <;>
    by_cases h4 : p = c <;> simp_all [mv]

theorem mv_applyMoves_comm :
    ∀ (ms : List (String × String)) (g : FS) (a b : String), a ≠ b →
      (∀ m ∈ ms, m.1 ≠ m.2 ∧ a ≠ m.1 ∧ a ≠ m.2 ∧ b ≠ m.1 ∧ b ≠ m.2) →
      mv a b (applyMoves g ms) = applyMoves (mv a b g) ms := by
  intro ms
  induction ms with
  | nil =>
    intro g a b _ _
    rfl
  | cons m rest ih =>
    intro g a b hab h
    have hm := h m (List.mem_cons_self m rest)
    simp only [applyMoves]
    rw [ih (mv m.1 m.2 g) a b hab (fun x hx => h x (List.mem_cons_of_mem m hx))]
    rw [mv_comm a b m.1 m.2 g hab hm.1 hm.2.1 hm.2.2.1 hm.2.2.2.1 hm.2.2.2.2]

theorem mv_inverse (o n : String) (fs : FS) (_hon : o ≠ n) (hn : fs n = none) :
    mv n o (mv o n fs) = fs := by
  funext p
  by_cases h1 : p = o <;> by_cases h2 : p = n <;> simp_all [mv]

theorem validRun_congr :
    ∀ (ms : List (String × String)) (g g2 : FS),
      (∀ m ∈ ms, g m.1 = g2 m.1 ∧ g m.2 = g2 m.2) →
      validRun g ms = validRun g2 ms := by
  intro ms
  induction ms with
  | nil =>
    intro g g2 _
    rfl
  | cons m rest ih =>
    intro g g2 h
    have hm := h m (List.mem_cons_self m rest)
    simp only [validRun]
    rw [hm.1, hm.2]
    have hrec : validRun (mv m.1 m.2 g) rest = validRun (mv m.1 m.2 g2) rest := by
      apply ih
      intro x hx
      have hx2 := h x (List.mem_cons_of_mem m hx)
      refine ⟨?_, ?_⟩
      · by_cases hd : x.1 = m.2
        · simp [mv, hd, hm.1]
        · by_cases hsrc : x.1 = m.1
          · simp [mv, hd, hsrc, hm.1]
          · simp [mv, hd, hsrc, hx2.1]
      · by_cases hd : x.2 = m.2
        · simp [mv, hd, hm.1]
        · by_cases hsrc : x.2 = m.1
          · simp [mv, hd, hsrc, hm.1]
          · simp [mv, hd, hsrc, hx2.2]
    rw [hrec]

theorem sepMoves_cons (m : String × String) (rest : List (String × String))
    (h : sepMoves (m :: rest) = true) :
    m.1 ≠ m.2 ∧
    (∀ x ∈ rest, x.1 ≠ m.1 ∧ x.2 ≠ m.2 ∧ x.1 ≠ m.2 ∧ x.2 ≠ m.1) ∧
    sepMoves rest = true := by
  simp only [sepMoves, Bool.and_eq_true, List.all_eq_true, bne_iff_ne] at h
  obtain ⟨⟨h1, h2⟩, h3⟩ := h
  refine ⟨h1, fun x hx => ?_, h3⟩
  have hx2 := h2 x hx
  exact ⟨hx2.1.1.1, hx2.1.1.2, hx2.1.2, hx2.2⟩

theorem sepMoves_own_ne :
    ∀ (ms : List (String × String)), sepMoves ms = true → ∀ m ∈ ms, m.1 ≠ m.2 := by
  intro ms
  induction ms with
  | nil =>
    intro _ m hm
    simp at hm
  | cons x rest ih =>
    intro h m hm
    obtain ⟨h1, _, h3⟩ := sepMoves_cons x rest h
    rcases List.mem_cons.mp hm with he | hm2
    · rw [he]
      exact h1
    · exact ih h3 m hm2

theorem undoMoves_applyMoves :
    ∀ (ms : List (String × String)) (fs : FS),
      validRun fs ms = true → sepMoves ms = true →
      undoMoves (applyMoves fs ms) ms = (fs, ms.length) := by
  intro ms
  induction ms with
  | nil =>
    intro fs _ _
    rfl
  | cons m rest ih =>
    intro fs hv hs
    simp only [validRun, Bool.and_eq_true] at hv
    obtain ⟨⟨hS, hN⟩, hV⟩ := hv
    rw [Option.isNone_iff_eq_none] at hN
    obtain ⟨hdiff, hall, hsep⟩ := sepMoves_cons m rest hs
    have hownrest : ∀ x ∈ rest, x.1 ≠ x.2 := sepMoves_own_ne rest hsep
    have hocc1 : ((mv m.1 m.2 fs) m.2).isSome = true := by
      rw [mv_dst]
      exact hS
    have hpers := run_preserves_occupied rest (mv m.1 m.2 fs) m.2 hocc1 hV
      (fun x hx => (hall x hx).2.2.1)
    have hRn : (applyMoves (mv m.1 m.2 fs) rest) m.2 = fs m.1 := by
      rw [hpers.2, mv_dst]
    simp only [applyMoves, undoMoves]
    rw [hRn, if_pos hS]
    have hcomm : mv m.2 m.1 (applyMoves (mv m.1 m.2 fs) rest) =
        applyMoves (mv m.2 m.1 (mv m.1 m.2 fs)) rest := by
      apply mv_applyMoves_comm rest (mv m.1 m.2 fs) m.2 m.1 (Ne.symm hdiff)
      intro x hx
      exact ⟨hownrest x hx, Ne.symm (hall x hx).2.2.1, Ne.symm (hpers.1 x hx),
        Ne.symm (hall x hx).1, Ne.symm (hall x hx).2.2.2⟩
    have hinv : mv m.2 m.1 (mv m.1 m.2 fs) = fs := mv_inverse m.1 m.2 fs hdiff hN
    rw [hcomm, hinv]
    have hagree : ∀ x ∈ rest, (mv m.1 m.2 fs) x.1 = fs x.1 ∧ (mv m.1 m.2 fs) x.2 = fs x.2 := by
      intro x hx
      exact ⟨mv_other m.1 m.2 x.1 fs (hall x hx).2.2.1 (hall x hx).1,
        mv_other m.1 m.2 x.2 fs (hpers.1 x hx) (hall x hx).2.2.2⟩
    have hvfs : validRun fs rest = true := by
      have hc := validRun_congr rest (mv m.1 m.2 fs) fs hagree
      rw [← hc]
      exact hV
    rw [ih fs hvfs hsep]
    rfl

theorem saveLog_dropLast_subset (hist : List α) (r : α) :
    (saveLog hist r).dropLast ⊆ hist := by
  unfold saveLog
  by_cases h : 5 < (hist ++ [r]).length
  · rw [if_pos h]
    have hm : (hist ++ [r]).length - 5 ≤ hist.length := by
      simp only [List.length_append, List.length_cons, List.length_nil]
      omega
    rw [List.drop_append_of_le_length hm, List.dropLast_concat]
    exact List.drop_subset _ _
  · rw [if_neg h, List.dropLast_concat]
    exact fun x hx => hx

/-- C1 counterexample: a run reachable in document mode (two files with the
same name, one of them already sitting inside a category folder, classified
into different categories) satisfies the worker's guarantees, yet undoing
it in the code's original record order destroys one file and leaves the
path d/Finans/rapor.txt empty instead of restoring file 1 there, while
still reporting 2 restored files. -/
theorem c1_counterexample :
    validRun c1CexFS c1CexMoves = true ∧
    c1CexFS "d/Finans/rapor.txt" = some 1 ∧
    (undoMoves (applyMoves c1CexFS c1CexMoves) c1CexMoves).1 "d/Finans/rapor.txt" = none ∧
    (undoMoves (applyMoves c1CexFS c1CexMoves) c1CexMoves).2 = 2 := by
  exact ⟨by decide, by decide, by decide, by decide⟩

/-- C1 (amended): when additionally no record's destination coincides with
another record's original path (the separation the counterexample shows the
code does not guarantee), undoing immediately after the run restores the
exact initial file system, counts all N records as restored, and the
undone run's record is no longer in the persisted history. -/
theorem c1_undo_roundtrip (fs : FS) (ms : List (String × String))
    (hist : List String) (r : String)
    (hv : validRun fs ms = true) (hs : sepMoves ms = true) :
    undoMoves (applyMoves fs ms) ms = (fs, ms.length) ∧
    (r ∉ hist → r ∉ (saveLog hist r).dropLast) := by
  exact ⟨undoMoves_applyMoves ms fs hv hs,
    fun hr hmem => hr (saveLog_dropLast_subset hist r hmem)⟩

/-- C1 witness: a two-file run with separated paths undoes to exactly the
initial file system with 2 files restored, and the run record is gone from
the saved history. -/
theorem c1_witness :
    validRun c1WitFS c1WitMoves = true ∧ sepMoves c1WitMoves = true ∧
    ("r6" ∉ (["r1", "r2"] : List String)) ∧
    (undoMoves (applyMoves c1WitFS c1WitMoves) c1WitMoves = (c1WitFS, 2) ∧
      "r6" ∉ (saveLog ["r1", "r2"] "r6").dropLast) := by
  have h := c1_undo_roundtrip c1WitFS c1WitMoves ["r1", "r2"] "r6" (by decide) (by decide)
  exact ⟨by decide, by decide, by decide, h.1, h.2 (by decide)⟩
